import Mathlib

/-!
Verification development for the pascal-docx repository.

The repository ships the React frontend (`src/frontend/components/*.jsx`);
the serving backend (Task Store, Job Dispatcher, Analysis Pipeline, Document
Assembler) is described by the specification but its source is not part of
the checked tree.  Backend definitions below are therefore modelled from the
spec (each such definition says so in its doc comment); frontend definitions
are translated directly from the JSX source.
-/

namespace PascalDocx

/-- Task kind: a book-analysis task or a document-generation task. -/
inductive TaskKind
  | analysis
  | generation
deriving DecidableEq

/-- Task lifecycle status: PENDING, PROCESSING, COMPLETED, FAILED. -/
inductive TaskStatus
  | pending
  | processing
  | completed
  | failed
deriving DecidableEq

/-- Whether a status is terminal (COMPLETED or FAILED). -/
def TaskStatus.isTerminal : TaskStatus → Bool
  | .completed => true
  | .failed => true
  | .pending => false
  | .processing => false

/-- Modelled from the spec: a Task Store record (spec §3 Task).  The backend
source holding the store is not under `src/`; fields follow the spec's data
model: status, progress (0.0–1.0, here a rational), message, result (present
only when COMPLETED), error (present only when FAILED).  The result payload
is kept opaque as a `String`. -/
structure TaskRec where
  kind : TaskKind
  status : TaskStatus
  progress : ℚ
  message : String
  result : Option String
  error : Option String
deriving DecidableEq

/-- Modelled from the spec: `create(kind, input)` allocates a record with
status=PENDING, progress=0.0, no result/error (spec §4.1). -/
def TaskRec.create (kind : TaskKind) : TaskRec :=
  { kind := kind, status := .pending, progress := 0, message := "", result := none, error := none }

/-- Modelled from the spec: `update(id, progress, message)` is rejected
(no-op) if the task is already terminal; a progress below the stored one or
outside the 0.0–1.0 data-model range is a programming error and is likewise
rejected; otherwise the status becomes PROCESSING and progress/message are
replaced (spec §4.1). -/
def TaskRec.update (r : TaskRec) (p : ℚ) (msg : String) : TaskRec :=
  if r.status.isTerminal then r
  else if p < r.progress ∨ 1 < p then r
  else { r with status := .processing, progress := p, message := msg }

/-- Modelled from the spec: `complete(id, result)` sets status=COMPLETED,
progress=1.0 and stores the result; rejected if already terminal (spec §4.1). -/
def TaskRec.complete (r : TaskRec) (res : String) : TaskRec :=
  if r.status.isTerminal then r
  else { r with status := .completed, progress := 1, result := some res }

/-- Modelled from the spec: `fail(id, error)` sets status=FAILED and stores
the error summary as the message; rejected if already terminal (spec §4.1). -/
def TaskRec.fail (r : TaskRec) (err : String) : TaskRec :=
  if r.status.isTerminal then r
  else { r with status := .failed, message := err, error := some err }

/-- A store write operation issued by the single pipeline owning a task. -/
inductive StoreOp
  | update (p : ℚ) (msg : String)
  | complete (res : String)
  | fail (err : String)
deriving DecidableEq

/-- Apply one store operation to a record. -/
def TaskRec.apply (r : TaskRec) : StoreOp → TaskRec
  | .update p msg => r.update p msg
  | .complete res => r.complete res
  | .fail err => r.fail err

/-- Apply a sequence of store operations in order. -/
def TaskRec.applyAll (r : TaskRec) (ops : List StoreOp) : TaskRec :=
  ops.foldl TaskRec.apply r

/-- Modelled from the spec: the snapshot returned by `getStatus`
(status, progress, message, result?, error?). -/
structure StatusView where
  status : TaskStatus
  progress : ℚ
  message : String
  result : Option String
  error : Option String
deriving DecidableEq

/-- Modelled from the spec: `get(id)` returns an immutable snapshot of the
record (spec §4.1, §6 `getStatus`). -/
def TaskRec.getStatus (r : TaskRec) : StatusView :=
  ⟨r.status, r.progress, r.message, r.result, r.error⟩

/-- Data-model invariant used in the proofs: stored progress never exceeds 1. -/
def TaskRec.wf (r : TaskRec) : Prop := r.progress ≤ 1

theorem TaskRec.wf_create (kind : TaskKind) : (TaskRec.create kind).wf := by
  simp [TaskRec.create, TaskRec.wf]

theorem TaskRec.wf_apply {r : TaskRec} (h : r.wf) (op : StoreOp) : (r.apply op).wf := by
  cases op with
  | update p msg =>
      simp only [TaskRec.apply, TaskRec.update]
      split
      · exact h
      · split
        · exact h
        · rename_i hc
          push_neg at hc
          exact hc.2
  | complete res =>
      simp only [TaskRec.apply, TaskRec.complete]
      split
      · exact h
      · exact le_refl (1 : ℚ)
  | fail err =>
      simp only [TaskRec.apply, TaskRec.fail]
      split
      · exact h
      · exact h

theorem TaskRec.wf_applyAll {r : TaskRec} (h : r.wf) (ops : List StoreOp) :
    (r.applyAll ops).wf := by
  induction ops generalizing r with
  | nil => exact h
  | cons op ops ih => exact ih (TaskRec.wf_apply h op)

theorem TaskRec.progress_le_apply {r : TaskRec} (h : r.wf) (op : StoreOp) :
    r.progress ≤ (r.apply op).progress := by
  cases op with
  | update p msg =>
      simp only [TaskRec.apply, TaskRec.update]
      split
      · exact le_refl _
      · split
        · exact le_refl _
        · rename_i hc
          push_neg at hc
          exact hc.1
  | complete res =>
      simp only [TaskRec.apply, TaskRec.complete]
      split
      · exact le_refl _
      · exact h
  | fail err =>
      simp only [TaskRec.apply, TaskRec.fail]
      split
      · exact le_refl _
      · exact le_refl _

theorem TaskRec.progress_le_applyAll {r : TaskRec} (h : r.wf) (ops : List StoreOp) :
    r.progress ≤ (r.applyAll ops).progress := by
  induction ops generalizing r with
  | nil => exact le_refl _
  | cons op ops ih =>
      exact le_trans (TaskRec.progress_le_apply h op) (ih (TaskRec.wf_apply h op))

theorem TaskRec.apply_of_terminal {r : TaskRec} (h : r.status.isTerminal = true)
    (op : StoreOp) : r.apply op = r := by
  cases op with
  | update p msg => simp [TaskRec.apply, TaskRec.update, h]
  | complete res => simp [TaskRec.apply, TaskRec.complete, h]
  | fail err => simp [TaskRec.apply, TaskRec.fail, h]

theorem TaskRec.applyAll_of_terminal {r : TaskRec} (h : r.status.isTerminal = true)
    (ops : List StoreOp) : r.applyAll ops = r := by
  induction ops with
  | nil => rfl
  | cons op ops ih =>
      show (r.apply op).applyAll ops = r
      rw [TaskRec.apply_of_terminal h op, ih]

/-- C1: for every task, progress reported by successive `getStatus` calls is
non-decreasing over time (any later snapshot of the same task, after further
store operations, reports progress at least the earlier one), and once the
task's status is COMPLETED or FAILED no later update, complete, or fail
operation changes its status, progress, result, or error (the whole record is
frozen). -/
theorem taskStore_progress_monotone_terminal_immutable (kind : TaskKind)
    (ops more : List StoreOp) :
    ((TaskRec.create kind).applyAll ops).getStatus.progress ≤
      ((TaskRec.create kind).applyAll (ops ++ more)).getStatus.progress ∧
    (((TaskRec.create kind).applyAll ops).status.isTerminal = true →
      (TaskRec.create kind).applyAll (ops ++ more) = (TaskRec.create kind).applyAll ops) := by
  have hsplit : (TaskRec.create kind).applyAll (ops ++ more) =
      ((TaskRec.create kind).applyAll ops).applyAll more := by
    simp [TaskRec.applyAll, List.foldl_append]
  constructor
  · rw [hsplit]
    exact TaskRec.progress_le_applyAll (TaskRec.wf_applyAll (TaskRec.wf_create kind) ops) more
  · intro hterm
    rw [hsplit]
    exact TaskRec.applyAll_of_terminal hterm more

/-- Witness for C1: a concrete completed task is terminal, and a later update
and fail leave the record unchanged while progress did not decrease. -/
theorem taskStore_progress_monotone_terminal_immutable_witness :
    ((TaskRec.create .analysis).applyAll [StoreOp.complete "done"]).status.isTerminal = true ∧
    ((TaskRec.create .analysis).applyAll [StoreOp.complete "done"]).getStatus.progress ≤
      ((TaskRec.create .analysis).applyAll
        ([StoreOp.complete "done"] ++ [StoreOp.update 0 "late", StoreOp.fail "late"])).getStatus.progress ∧
    (TaskRec.create .analysis).applyAll
        ([StoreOp.complete "done"] ++ [StoreOp.update 0 "late", StoreOp.fail "late"]) =
      (TaskRec.create .analysis).applyAll [StoreOp.complete "done"] :=
  ⟨by decide,
   (taskStore_progress_monotone_terminal_immutable .analysis [StoreOp.complete "done"]
      [StoreOp.update 0 "late", StoreOp.fail "late"]).1,
   (taskStore_progress_monotone_terminal_immutable .analysis [StoreOp.complete "done"]
      [StoreOp.update 0 "late", StoreOp.fail "late"]).2 (by decide)⟩

theorem TaskRec.fail_of_terminal {r : TaskRec} (h : r.status.isTerminal = true)
    (err : String) : r.fail err = r := by
  simp [TaskRec.fail, h]

theorem TaskRec.fail_of_not_terminal {r : TaskRec} (h : r.status.isTerminal = false)
    (err : String) :
    r.fail err = { r with status := .failed, message := err, error := some err } := by
  simp [TaskRec.fail, h]

/-- Modelled from the spec: one pipeline execution as observed at the
Dispatcher boundary — the store operations the pipeline performed before
finishing, plus `some f` when a fault escaped the pipeline (spec §4.2). -/
structure PipelineRun where
  ops : List StoreOp
  fault : Option String

/-- Modelled from the spec: the Job Dispatcher creates the task, lets the
pipeline execution act on it, and catches any fault escaping the pipeline,
converting it into `fail(id, InternalFault)` (spec §4.2, §7 InternalFault). -/
def dispatchRun (kind : TaskKind) (exec : PipelineRun) : TaskRec :=
  let r := (TaskRec.create kind).applyAll exec.ops
  match exec.fault with
  | some f => r.fail ("InternalFault: " ++ f)
  | none => r

/-- C2: any fault escaping a launched pipeline is caught at the Dispatcher
and converted into `fail(id, InternalFault)`: the final record is terminal
(never left PENDING or PROCESSING), and if the pipeline had not already
terminated the task itself, the task ends FAILED carrying the InternalFault
error. -/
theorem dispatcher_converts_fault_to_failed (kind : TaskKind) (exec : PipelineRun)
    (f : String) (hf : exec.fault = some f) :
    (dispatchRun kind exec).status.isTerminal = true ∧
    (((TaskRec.create kind).applyAll exec.ops).status.isTerminal = false →
      (dispatchRun kind exec).status = TaskStatus.failed ∧
      (dispatchRun kind exec).error = some ("InternalFault: " ++ f)) := by
  unfold dispatchRun
  rw [hf]
  simp only
  cases hterm : ((TaskRec.create kind).applyAll exec.ops).status.isTerminal with
  | true =>
      constructor
      · rw [TaskRec.fail_of_terminal hterm]
        exact hterm
      · intro hcontra
        simp [hterm] at hcontra
  | false =>
      rw [TaskRec.fail_of_not_terminal hterm]
      exact ⟨rfl, fun _ => ⟨rfl, rfl⟩⟩

/-- Witness for C2: a pipeline that faulted before issuing any store call;
the dispatcher converts the fault into a FAILED task with an InternalFault
error. -/
theorem dispatcher_converts_fault_to_failed_witness :
    (dispatchRun .analysis ⟨[], some "boom"⟩).status.isTerminal = true ∧
    (dispatchRun .analysis ⟨[], some "boom"⟩).status = TaskStatus.failed ∧
    (dispatchRun .analysis ⟨[], some "boom"⟩).error = some ("InternalFault: " ++ "boom") :=
  ⟨(dispatcher_converts_fault_to_failed .analysis ⟨[], some "boom"⟩ "boom" rfl).1,
   (dispatcher_converts_fault_to_failed .analysis ⟨[], some "boom"⟩ "boom" rfl).2 (by decide)⟩

/-- The client-side polling interval in milliseconds
(ResultsPage.jsx line 80: `setInterval(..., 2000)`). -/
def pollIntervalMs : Nat := 2000

/-- Phase of the ResultsPage status-polling logic between two events. -/
inductive PollMode
  | runEffect
  | waitTick
  | idle
deriving DecidableEq

/-- Discrete model of the ResultsPage status-polling useEffect
(ResultsPage.jsx lines 34–83).  `resp k` is the status the server reports to
the k-th status request (0-based).  `rendered` is the `taskData?.status`
value in the current render — the useEffect dependency — and `captured` the
value closed over by the live interval callback.  The effect body always
issues one immediate status request (`checkTaskStatus()`) and installs an
interval; the interval callback clears the interval without a request when
the captured status is completed/failed, and otherwise issues a request.  A
response that changes `taskData?.status` changes the dependency, so the
effect cleans up (clearing the interval) and re-runs, which the model folds
into moving back to `runEffect`; a response equal to the rendered status
leaves the installed interval waiting for its next tick.  Fuel-indexed;
returns the total number of status requests issued. -/
def clientStep (resp : Nat → TaskStatus) : Nat → PollMode → Option TaskStatus →
    Option TaskStatus → Nat → Nat
  | 0, _, _, _, reqs => reqs
  | _ + 1, .idle, _, _, reqs => reqs
  | fuel + 1, .runEffect, rendered, _, reqs =>
      if some (resp reqs) = rendered then
        clientStep resp fuel .waitTick rendered rendered (reqs + 1)
      else
        clientStep resp fuel .runEffect (some (resp reqs)) none (reqs + 1)
  | fuel + 1, .waitTick, rendered, captured, reqs =>
      if captured.elim false TaskStatus.isTerminal then
        clientStep resp fuel .idle rendered captured reqs
      else if some (resp reqs) = rendered then
        clientStep resp fuel .waitTick rendered captured (reqs + 1)
      else
        clientStep resp fuel .runEffect (some (resp reqs)) none (reqs + 1)

/-- The ResultsPage polling run from mount (no task data yet). -/
def clientRun (resp : Nat → TaskStatus) (fuel : Nat) : Nat :=
  clientStep resp fuel .runEffect none none 0

theorem clientStep_idle (resp : Nat → TaskStatus) (f : Nat) (r c : Option TaskStatus)
    (q : Nat) : clientStep resp (f + 1) .idle r c q = q := rfl

theorem clientStep_runEffect (resp : Nat → TaskStatus) (f : Nat) (r c : Option TaskStatus)
    (q : Nat) :
    clientStep resp (f + 1) .runEffect r c q =
      if some (resp q) = r then clientStep resp f .waitTick r r (q + 1)
      else clientStep resp f .runEffect (some (resp q)) none (q + 1) := rfl

theorem clientStep_waitTick (resp : Nat → TaskStatus) (f : Nat) (r c : Option TaskStatus)
    (q : Nat) :
    clientStep resp (f + 1) .waitTick r c q =
      if c.elim false TaskStatus.isTerminal then clientStep resp f .idle r c q
      else if some (resp q) = r then clientStep resp f .waitTick r c (q + 1)
      else clientStep resp f .runEffect (some (resp q)) none (q + 1) := rfl

/-- C3 counterexample: with a server that reports 'processing' to the first
two status requests and 'completed' afterwards, the poll numbered 2
(0-based) is the first to report a terminal status, so under the claim the
client would issue exactly 3 requests in total; the modelled ResultsPage
polling logic issues 4 — the status change re-triggers the useEffect, whose
body unconditionally calls `checkTaskStatus()` once more. -/
theorem resultsPage_polling_counterexample :
    (∀ k < 2, ((fun k => if k < 2 then TaskStatus.processing else TaskStatus.completed) k).isTerminal
      = false) ∧
    ((fun k => if k < 2 then TaskStatus.processing else TaskStatus.completed) 2).isTerminal
      = true ∧
    clientRun (fun k => if k < 2 then TaskStatus.processing else TaskStatus.completed) 20 = 4 ∧
    ¬ clientRun (fun k => if k < 2 then TaskStatus.processing else TaskStatus.completed) 20 = 3 := by
  decide

/-- C3 (amended): the status view polls the task-status endpoint as simple
request/response at the fixed client-side interval of 2000 ms, and once a
poll reports status 'completed' or 'failed' — so the rendered
`taskData?.status` is terminal and the effect re-runs — the client issues
exactly one further status request (the unconditional `checkTaskStatus()` of
the re-run effect body); the re-installed interval then clears itself on its
first tick, and no additional requests ever occur (the total request count
is fixed at one more, for any remaining fuel). -/
theorem resultsPage_one_more_poll_after_terminal (resp : Nat → TaskStatus)
    (t : TaskStatus) (c : Option TaskStatus) (n f : Nat)
    (hterm : t.isTerminal = true) (hresp : resp n = t) :
    pollIntervalMs = 2000 ∧
    clientStep resp (f + 2) .runEffect (some t) c n = n + 1 := by
  refine ⟨rfl, ?_⟩
  have hidle : ∀ (m : Nat) (r c' : Option TaskStatus), clientStep resp m .idle r c' (n + 1) = n + 1 := by
    intro m r c'
    cases m with
    | zero => rfl
    | succ m => rfl
  have h1 : clientStep resp (f + 2) .runEffect (some t) c n =
      clientStep resp (f + 1) .waitTick (some t) (some t) (n + 1) := by
    change clientStep resp ((f + 1) + 1) .runEffect (some t) c n = _
    rw [clientStep_runEffect, hresp, if_pos rfl]
  have h2 : clientStep resp (f + 1) .waitTick (some t) (some t) (n + 1) =
      clientStep resp f .idle (some t) (some t) (n + 1) := by
    rw [clientStep_waitTick]
    simp [hterm]
  rw [h1, h2, hidle]

/-- Witness for C3's amended theorem: a server constantly reporting
'completed'; from the effect re-run triggered by the terminal status, exactly
one further request is issued. -/
theorem resultsPage_one_more_poll_after_terminal_witness :
    TaskStatus.completed.isTerminal = true ∧
    clientStep (fun _ => TaskStatus.completed) 2 .runEffect (some TaskStatus.completed) none 0 = 1 :=
  ⟨rfl, (resultsPage_one_more_poll_after_terminal (fun _ => TaskStatus.completed)
      TaskStatus.completed none 0 0 rfl rfl).2⟩

/-- The BookAnalysisPage `formData` state (BookAnalysisPage initial state in
the ResultsPage.jsx source file): every field is a raw form string. -/
structure AnalysisForm where
  title : String
  author : String
  ar_level : String
  pages : String
  genre : String
  publication_year : String
  isbn : String
  summary : String
deriving DecidableEq

/-- The JSON body POSTed by BookAnalysisPage.handleSubmit: the spread of
`formData` with `ar_level` replaced by its parsed float (modelled as ℚ) and
`pages`/`publication_year` replaced by parsed integers or null. -/
structure AnalyzeRequestBody where
  title : String
  author : String
  genre : String
  isbn : String
  summary : String
  ar_level : ℚ
  pages : Option Int
  publication_year : Option Int
deriving DecidableEq

/-- Request body built by BookAnalysisPage.handleSubmit.  `pf` models
JavaScript `parseFloat` and `pi` models `parseInt`; the JavaScript
conditionals `formData.pages ? parseInt(formData.pages) : null` test string
truthiness, which for these form strings is non-emptiness. -/
def buildAnalyzeBody (pf : String → ℚ) (pi : String → Int) (f : AnalysisForm) :
    AnalyzeRequestBody :=
  { title := f.title, author := f.author, genre := f.genre, isbn := f.isbn
  , summary := f.summary
  , ar_level := pf f.ar_level
  , pages := if f.pages = "" then none else some (pi f.pages)
  , publication_year := if f.publication_year = "" then none
      else some (pi f.publication_year) }

/-- Outcome of BookAnalysisPage.handleSubmit: rejected client-side with a
destructive toast, or submitted as a POST with a JSON body. -/
inductive SubmitOutcome
  | rejected (toastTitle toastDesc : String)
  | submitted (url : String) (body : AnalyzeRequestBody)
deriving DecidableEq

/-- BookAnalysisPage.handleSubmit: the mandatory-field check
`!formData.title || !formData.author || !formData.ar_level` (JavaScript
string falsiness, i.e. emptiness) shows an input-error toast and returns
before any network activity; otherwise it POSTs the built body to
`/api/v1/books/analyze`.  The second component is the list of network
requests issued. -/
def handleSubmit (pf : String → ℚ) (pi : String → Int) (f : AnalysisForm) :
    SubmitOutcome × List String :=
  if f.title = "" ∨ f.author = "" ∨ f.ar_level = "" then
    (.rejected "입력 오류" "제목, 저자, AR 레벨은 필수 입력 항목입니다.", [])
  else
    (.submitted "/api/v1/books/analyze" (buildAnalyzeBody pf pi f),
     ["/api/v1/books/analyze"])

/-- C4: a submitAnalysis attempt in which any of title, author, or ar_level
is missing (empty form string) is rejected before any analysis proceeds:
handleSubmit returns the input-error toast and issues no network request. -/
theorem handleSubmit_rejects_missing_mandatory (pf : String → ℚ) (pi : String → Int)
    (f : AnalysisForm) (h : f.title = "" ∨ f.author = "" ∨ f.ar_level = "") :
    handleSubmit pf pi f =
      (.rejected "입력 오류" "제목, 저자, AR 레벨은 필수 입력 항목입니다.", []) := by
  unfold handleSubmit
  rw [if_pos h]

/-- Witness for C4: a form with an empty title is rejected with no request. -/
theorem handleSubmit_rejects_missing_mandatory_witness :
    handleSubmit (fun _ => 0) (fun _ => 0)
        ⟨"", "E.B. White", "4.4", "", "", "", "", ""⟩ =
      (.rejected "입력 오류" "제목, 저자, AR 레벨은 필수 입력 항목입니다.", []) :=
  handleSubmit_rejects_missing_mandatory (fun _ => 0) (fun _ => 0)
    ⟨"", "E.B. White", "4.4", "", "", "", "", ""⟩ (Or.inl rfl)

/-- C10: in every submitAnalysis request body the client sends ar_level as
the float parsed from the form text, sends pages and publication_year as
null exactly when the form field is empty and as its parsed integer
otherwise, and sends all remaining BookInfo fields as the raw form
strings. -/
theorem analyzeRequestBody_fields (pf : String → ℚ) (pi : String → Int)
    (f : AnalysisForm) :
    (buildAnalyzeBody pf pi f).ar_level = pf f.ar_level ∧
    (f.pages = "" → (buildAnalyzeBody pf pi f).pages = none) ∧
    (f.pages ≠ "" → (buildAnalyzeBody pf pi f).pages = some (pi f.pages)) ∧
    (f.publication_year = "" → (buildAnalyzeBody pf pi f).publication_year = none) ∧
    (f.publication_year ≠ "" →
      (buildAnalyzeBody pf pi f).publication_year = some (pi f.publication_year)) ∧
    (buildAnalyzeBody pf pi f).title = f.title ∧
    (buildAnalyzeBody pf pi f).author = f.author ∧
    (buildAnalyzeBody pf pi f).genre = f.genre ∧
    (buildAnalyzeBody pf pi f).isbn = f.isbn ∧
    (buildAnalyzeBody pf pi f).summary = f.summary := by
  refine ⟨rfl, ?_, ?_, ?_, ?_, rfl, rfl, rfl, rfl, rfl⟩
  · intro h
    simp [buildAnalyzeBody, h]
  · intro h
    simp [buildAnalyzeBody, h]
  · intro h
    simp [buildAnalyzeBody, h]
  · intro h
    simp [buildAnalyzeBody, h]

/-- Witness for C10: a form with pages filled and publication_year empty;
pages is sent parsed, publication_year is sent as null, raw fields pass
through. -/
theorem analyzeRequestBody_fields_witness :
    (buildAnalyzeBody (fun _ => 22/5) (fun _ => 184)
        ⟨"Charlotte's Web", "E.B. White", "4.4", "184", "children", "", "", ""⟩).pages
      = some 184 ∧
    (buildAnalyzeBody (fun _ => 22/5) (fun _ => 184)
        ⟨"Charlotte's Web", "E.B. White", "4.4", "184", "children", "", "", ""⟩).publication_year
      = none :=
  ⟨(analyzeRequestBody_fields (fun _ => 22/5) (fun _ => 184)
      ⟨"Charlotte's Web", "E.B. White", "4.4", "184", "children", "", "", ""⟩).2.2.1
      (by decide),
   (analyzeRequestBody_fields (fun _ => 22/5) (fun _ => 184)
      ⟨"Charlotte's Web", "E.B. White", "4.4", "184", "children", "", "", ""⟩).2.2.2.1 rfl⟩

/-- Outcome of ResultsPage.handleDownload before any network activity:
either it throws without fetching, or it fetches a url and saves under a
filename. -/
inductive DownloadOutcome
  | throwBefore (msg : String)
  | fetchUrl (url : String) (filename : String)
deriving DecidableEq

/-- ResultsPage.handleDownload (ResultsPage.jsx lines 85–128): a url is
computed only for type 'csv' on an analysis task or type 'docx' on a
generation task; any other combination throws '잘못된 다운로드 요청입니다.'
before any fetch. -/
def handleDownload (ty : String) (taskType : Option String) (taskId : String) :
    DownloadOutcome :=
  if ty = "csv" ∧ taskType = some "analysis" then
    .fetchUrl ("/api/v1/books/analyze/" ++ taskId ++ "/csv") ("analysis_" ++ taskId ++ ".csv")
  else if ty = "docx" ∧ taskType = some "generation" then
    .fetchUrl ("/api/v1/documents/" ++ taskId ++ "/download") ("textbook_" ++ taskId ++ ".docx")
  else
    .throwBefore "잘못된 다운로드 요청입니다."

/-- Modelled from the spec: `getCsv(taskId)` returns a byte stream only when
kind=ANALYSIS and status=COMPLETED, otherwise a NotFoundError/InvalidKind
error (spec §6); the backend serving this endpoint is not under `src/`.  The
stream is modelled as the stored result payload. -/
def getCsv (r : TaskRec) : Except String String :=
  if r.kind = .analysis ∧ r.status = .completed then .ok (r.result.getD "")
  else .error "NotFoundError/InvalidKind"

/-- Modelled from the spec: `getDocument(taskId)` returns a byte stream only
when kind=GENERATION and status=COMPLETED, otherwise a
NotFoundError/InvalidKind error (spec §6). -/
def getDocument (r : TaskRec) : Except String String :=
  if r.kind = .generation ∧ r.status = .completed then .ok (r.result.getD "")
  else .error "NotFoundError/InvalidKind"

/-- Whether an `Except` carries a success value. -/
def exceptOk {ε α : Type} : Except ε α → Bool
  | .ok _ => true
  | .error _ => false

/-- C5: a CSV stream is obtained only for an ANALYSIS task and a DOCX stream
only for a GENERATION task; a kind mismatch (e.g. getCsv against a
GENERATION task) yields an error and never a byte stream; and the client's
handleDownload throws without fetching whenever the requested type does not
match the identified task type. -/
theorem download_kind_mismatch_never_streams (r : TaskRec) (tid : String)
    (tt : Option String) :
    (∀ b, getCsv r = .ok b → r.kind = .analysis ∧ r.status = .completed) ∧
    (∀ b, getDocument r = .ok b → r.kind = .generation ∧ r.status = .completed) ∧
    (r.kind = .generation → exceptOk (getCsv r) = false) ∧
    (r.kind = .analysis → exceptOk (getDocument r) = false) ∧
    (tt ≠ some "analysis" →
      handleDownload "csv" tt tid = .throwBefore "잘못된 다운로드 요청입니다.") ∧
    (tt ≠ some "generation" →
      handleDownload "docx" tt tid = .throwBefore "잘못된 다운로드 요청입니다.") := by
  refine ⟨?_, ?_, ?_, ?_, ?_, ?_⟩
  · intro b hb
    by_cases h : r.kind = .analysis ∧ r.status = .completed
    · exact h
    · rw [getCsv, if_neg h] at hb
      cases hb
  · intro b hb
    by_cases h : r.kind = .generation ∧ r.status = .completed
    · exact h
    · rw [getDocument, if_neg h] at hb
      cases hb
  · intro h
    have : ¬ (r.kind = .analysis ∧ r.status = .completed) := by
      rintro ⟨h1, -⟩
      rw [h] at h1
      cases h1
    rw [getCsv, if_neg this]
    rfl
  · intro h
    have : ¬ (r.kind = .generation ∧ r.status = .completed) := by
      rintro ⟨h1, -⟩
      rw [h] at h1
      cases h1
    rw [getDocument, if_neg this]
    rfl
  · intro h
    rw [handleDownload, if_neg (by rintro ⟨-, h2⟩; exact h h2),
      if_neg (by rintro ⟨h1, -⟩; exact absurd h1 (by decide))]
  · intro h
    rw [handleDownload, if_neg (by rintro ⟨h1, -⟩; exact absurd h1 (by decide)),
      if_neg (by rintro ⟨-, h2⟩; exact h h2)]

/-- Witness for C5: a completed GENERATION task; getCsv yields an error, not
a stream, and handleDownload of type 'csv' against the generation task type
throws before fetching. -/
theorem download_kind_mismatch_never_streams_witness :
    exceptOk (getCsv ⟨.generation, .completed, 1, "done", some "doc", none⟩) = false ∧
    handleDownload "csv" (some "generation") "t1" = .throwBefore "잘못된 다운로드 요청입니다." :=
  ⟨(download_kind_mismatch_never_streams
      ⟨.generation, .completed, 1, "done", some "doc", none⟩ "t1" (some "generation")).2.2.1 rfl,
   (download_kind_mismatch_never_streams
      ⟨.generation, .completed, 1, "done", some "doc", none⟩ "t1" (some "generation")).2.2.2.2.1
      (by decide)⟩

/-- The DocumentGenerationPage `settings` state (DocumentGenerationPage.jsx
lines 29–35): exactly the fields title, subtitle, author, institution,
level. -/
structure GenSettings where
  title : String
  subtitle : String
  author : String
  institution : String
  level : String
deriving DecidableEq

/-- Initial settings state (DocumentGenerationPage.jsx lines 29–35). -/
def initialSettings : GenSettings :=
  { title := "파스칼 영어 토론 교재", subtitle := "AI 생성 토론 주제 모음"
  , author := "파스칼 교육팀", institution := "파스칼 교육원", level := "regular" }

/-- One option of the level Select (DocumentGenerationPage.jsx levelOptions,
lines 138–142). -/
structure LevelOption where
  value : String
  label : String
  description : String
deriving DecidableEq

/-- levelOptions (DocumentGenerationPage.jsx lines 138–142). -/
def levelOptions : List LevelOption :=
  [ { value := "preparation", label := "기초 단계", description := "영어 토론 입문자를 위한 기본 수준" }
  , { value := "regular", label := "발전 단계", description := "중급 수준의 토론 실력 향상" }
  , { value := "mastery", label := "숙달 단계", description := "고급 수준의 독립적 토론 능력" } ]

/-- The value of the i-th level option. -/
def levelOptionValue (i : Fin 3) : String :=
  (levelOptions.get (Fin.cast rfl i)).value

/-- UI events that mutate the settings state: the four text inputs call
handleSettingChange with free strings; the level Select's onValueChange is
invoked only with the value of one of the three rendered SelectItems
(DocumentGenerationPage.jsx lines 281–345). -/
inductive SettingsEvent
  | setTitle (s : String)
  | setSubtitle (s : String)
  | setAuthor (s : String)
  | setInstitution (s : String)
  | selectLevel (i : Fin 3)

/-- handleSettingChange as driven by the page's controls
(DocumentGenerationPage.jsx lines 81–86 and 281–345). -/
def applyEvent (st : GenSettings) : SettingsEvent → GenSettings
  | .setTitle s => { st with title := s }
  | .setSubtitle s => { st with subtitle := s }
  | .setAuthor s => { st with author := s }
  | .setInstitution s => { st with institution := s }
  | .selectLevel i => { st with level := levelOptionValue i }

/-- The settings state after a sequence of UI events from mount. -/
def applyEvents (events : List SettingsEvent) : GenSettings :=
  events.foldl applyEvent initialSettings

/-- The `settings` JSON submitted by DocumentGenerationPage.handleSubmit
(line 105: `JSON.stringify(settings)`): exactly the five settings fields, as
key/value pairs. -/
def settingsJsonFields (st : GenSettings) : List (String × String) :=
  [("title", st.title), ("subtitle", st.subtitle), ("author", st.author),
   ("institution", st.institution), ("level", st.level)]

theorem level_mem_of_events (st : GenSettings)
    (h : st.level ∈ levelOptions.map LevelOption.value) (events : List SettingsEvent) :
    (events.foldl applyEvent st).level ∈ levelOptions.map LevelOption.value := by
  induction events generalizing st with
  | nil => exact h
  | cons e es ih =>
      refine ih (applyEvent st e) ?_
      cases e with
      | setTitle s => exact h
      | setSubtitle s => exact h
      | setAuthor s => exact h
      | setInstitution s => exact h
      | selectLevel i =>
          show levelOptionValue i ∈ levelOptions.map LevelOption.value
          fin_cases i <;> decide

/-- C8: every DocumentSettings value submitted by the client has exactly the
fields title, subtitle, author, institution, and level; its level field is
always one of {preparation, regular, mastery} in every state reachable from
mount through the page's controls; and 'regular' is the initial default. -/
theorem genSettings_fields_and_level_invariant (events : List SettingsEvent) :
    initialSettings.level = "regular" ∧
    levelOptions.map LevelOption.value = ["preparation", "regular", "mastery"] ∧
    (applyEvents events).level ∈ ["preparation", "regular", "mastery"] ∧
    (settingsJsonFields (applyEvents events)).map Prod.fst =
      ["title", "subtitle", "author", "institution", "level"] := by
  refine ⟨rfl, rfl, ?_, rfl⟩
  have h := level_mem_of_events initialSettings (by decide) events
  rw [show levelOptions.map LevelOption.value = ["preparation", "regular", "mastery"] from rfl] at h
  exact h

/-- The two status endpoints probed by ResultsPage.checkTaskStatus. -/
inductive StatusEndpoint
  | analysisStatus
  | generationStatus
deriving DecidableEq

/-- Outcome of ResultsPage.checkTaskStatus: task type set to 'analysis' with
its data, task type set to 'generation' with its data, or the error state
(which carries only the error message, no task data). -/
inductive CheckOutcome (α : Type)
  | analysis (data : α)
  | generation (data : α)
  | errorState (msg : String)
deriving DecidableEq

/-- ResultsPage.checkTaskStatus (ResultsPage.jsx lines 37–68): probe the
analysis status endpoint first; only when it responds non-OK, probe the
generation status endpoint; when both respond non-OK, throw into the error
state.  `resp` maps each endpoint to `some data` (HTTP OK) or `none`
(non-OK).  Returns the outcome and the requests issued, in order. -/
def checkTaskStatus {α : Type} (resp : StatusEndpoint → Option α) :
    CheckOutcome α × List StatusEndpoint :=
  match resp .analysisStatus with
  | some d => (.analysis d, [.analysisStatus])
  | none =>
      match resp .generationStatus with
      | some d => (.generation d, [.analysisStatus, .generationStatus])
      | none => (.errorState "작업을 찾을 수 없습니다.",
          [.analysisStatus, .generationStatus])

/-- C9: the results page classifies a task id by probing the analysis status
endpoint first — an OK response sets taskType to 'analysis' without touching
the generation endpoint; only otherwise is the generation endpoint queried,
an OK response setting taskType to 'generation'; and when both respond
non-OK the page enters the error state, displaying no task data. -/
theorem checkTaskStatus_probe_order {α : Type} (resp : StatusEndpoint → Option α) :
    (∀ d, resp .analysisStatus = some d →
      checkTaskStatus resp = (.analysis d, [.analysisStatus])) ∧
    (∀ d, resp .analysisStatus = none → resp .generationStatus = some d →
      checkTaskStatus resp = (.generation d, [.analysisStatus, .generationStatus])) ∧
    (resp .analysisStatus = none → resp .generationStatus = none →
      checkTaskStatus resp = (.errorState "작업을 찾을 수 없습니다.",
        [.analysisStatus, .generationStatus])) := by
  refine ⟨?_, ?_, ?_⟩
  · intro d hd
    simp [checkTaskStatus, hd]
  · intro d ha hd
    simp [checkTaskStatus, ha, hd]
  · intro ha hd
    simp [checkTaskStatus, ha, hd]

/-- Witness for C9: the analysis endpoint is non-OK and the generation
endpoint is OK, so the task is classified as 'generation' after probing both
endpoints in order. -/
theorem checkTaskStatus_probe_order_witness :
    checkTaskStatus (fun e => match e with
        | .analysisStatus => (none : Option String)
        | .generationStatus => some "gen") =
      (.generation "gen", [.analysisStatus, .generationStatus]) :=
  (checkTaskStatus_probe_order (fun e => match e with
      | .analysisStatus => (none : Option String)
      | .generationStatus => some "gen")).2.1 "gen" rfl rfl

/-- The six fixed educational dimensions, in declaration order (spec §4.3
stage 2). -/
inductive Dimension
  | readingComprehension
  | vocabulary
  | discussionSkill
  | criticalThinking
  | culturalContext
  | writing
deriving DecidableEq, Fintype

/-- The dimensions in declaration order. -/
def dimensions : List Dimension :=
  [.readingComprehension, .vocabulary, .discussionSkill, .criticalThinking,
   .culturalContext, .writing]

/-- Declaration position of a dimension. -/
def Dimension.idx : Dimension → Nat
  | .readingComprehension => 0
  | .vocabulary => 1
  | .discussionSkill => 2
  | .criticalThinking => 3
  | .culturalContext => 4
  | .writing => 5

/-- The three difficulty tiers (spec glossary; the values of the
DocumentGenerationPage level Select). -/
inductive Tier
  | preparation
  | regular
  | mastery
deriving DecidableEq, Fintype

/-- The tiers in declaration order. -/
def tiers : List Tier := [.preparation, .regular, .mastery]

theorem mem_dimensions : ∀ d : Dimension, d ∈ dimensions := by decide

theorem nodup_dimensions : dimensions.Nodup := by decide

theorem card_dimension : Fintype.card Dimension = 6 := rfl

/-- Modelled from the spec: the outcome of one per-dimension generation call
— a numeric sub-score and, per difficulty tier, the candidate topics; a call
that errors, times out, or returns unparsable output contributes a zero
sub-score and zero topics (spec §4.3 stage 2). -/
structure DimResult where
  score : ℚ
  topics : Tier → List String

/-- Total topic count of one dimension across the three tiers. -/
def DimResult.topicCount (dr : DimResult) : Nat :=
  (tiers.map fun t => (dr.topics t).length).sum

/-- Modelled from the spec: the best_areas ranking — `a` ranks strictly
better than `b` when its sub-score is higher, or equal with an earlier
declaration position (ties broken by dimension declaration order, spec §4.3
stage 3). -/
def scoreBetter (σ : Dimension → ℚ) (a b : Dimension) : Prop :=
  σ b < σ a ∨ (σ a = σ b ∧ a.idx < b.idx)

instance (σ : Dimension → ℚ) (a b : Dimension) : Decidable (scoreBetter σ a b) := by
  unfold scoreBetter
  infer_instance

/-- Number of dimensions ranking strictly better than `d`. -/
def scoreRank (σ : Dimension → ℚ) (d : Dimension) : Nat :=
  (Finset.univ.filter fun x => scoreBetter σ x d).card

/-- Modelled from the spec: the aggregate fields of an AnalysisResult
(spec §3, §4.3 stage 3). -/
structure AnalysisAgg where
  overall_score : ℚ
  best_areas : List Dimension
  topics_generated : Nat

/-- Modelled from the spec: the Aggregate stage — overall_score is the
unweighted mean of the 6 sub-scores, best_areas the dimensions ranking in
the top 2 (listed in declaration order), topics_generated the total topic
count across all dimensions and tiers (spec §4.3 stage 3). -/
def aggregate (res : Dimension → DimResult) : AnalysisAgg :=
  { overall_score := (dimensions.map fun d => (res d).score).sum / 6
  , best_areas := dimensions.filter fun d =>
      decide (scoreRank (fun x => (res x).score) d < 2)
  , topics_generated := (dimensions.map fun d => (res d).topicCount).sum }

theorem Dimension.idx_injective : Function.Injective Dimension.idx := by decide

theorem scoreBetter_irrefl (σ : Dimension → ℚ) (d : Dimension) : ¬ scoreBetter σ d d := by
  simp [scoreBetter]

theorem scoreBetter_trans (σ : Dimension → ℚ) {a b c : Dimension}
    (h1 : scoreBetter σ a b) (h2 : scoreBetter σ b c) : scoreBetter σ a c := by
  rcases h1 with h1 | ⟨h1e, h1i⟩ <;> rcases h2 with h2 | ⟨h2e, h2i⟩
  · exact Or.inl (lt_trans h2 h1)
  · exact Or.inl (h2e ▸ h1)
  · exact Or.inl (by rw [h1e]; exact h2)
  · exact Or.inr ⟨h1e.trans h2e, lt_trans h1i h2i⟩

theorem scoreBetter_total (σ : Dimension → ℚ) {a b : Dimension} (h : a ≠ b) :
    scoreBetter σ a b ∨ scoreBetter σ b a := by
  rcases lt_trichotomy (σ a) (σ b) with hlt | heq | hgt
  · exact Or.inr (Or.inl hlt)
  · have hne : a.idx ≠ b.idx := fun hh => h (Dimension.idx_injective hh)
    rcases Nat.lt_or_ge a.idx b.idx with hi | hi
    · exact Or.inl (Or.inr ⟨heq, hi⟩)
    · exact Or.inr (Or.inr ⟨heq.symm, lt_of_le_of_ne hi (Ne.symm hne)⟩)
  · exact Or.inl (Or.inl hgt)

theorem scoreRank_lt_of_better (σ : Dimension → ℚ) {a b : Dimension}
    (h : scoreBetter σ a b) : scoreRank σ a < scoreRank σ b := by
  have hsub : insert a (Finset.univ.filter fun x => scoreBetter σ x a) ⊆
      Finset.univ.filter fun x => scoreBetter σ x b := by
    intro x hx
    rcases Finset.mem_insert.mp hx with rfl | hx
    · exact Finset.mem_filter.mpr ⟨Finset.mem_univ _, h⟩
    · exact Finset.mem_filter.mpr ⟨Finset.mem_univ _,
        scoreBetter_trans σ (Finset.mem_filter.mp hx).2 h⟩
  have hnm : a ∉ Finset.univ.filter fun x => scoreBetter σ x a := by
    simp [scoreBetter_irrefl]
  calc scoreRank σ a < scoreRank σ a + 1 := Nat.lt_succ_self _
    _ = (insert a (Finset.univ.filter fun x => scoreBetter σ x a)).card :=
        (Finset.card_insert_of_not_mem hnm).symm
    _ ≤ scoreRank σ b := Finset.card_le_card hsub

theorem scoreRank_injective (σ : Dimension → ℚ) : Function.Injective (scoreRank σ) := by
  intro a b hab
  by_contra hne
  rcases scoreBetter_total σ hne with h | h
  · exact absurd hab (Nat.ne_of_lt (scoreRank_lt_of_better σ h))
  · exact absurd hab (Nat.ne_of_gt (scoreRank_lt_of_better σ h))

theorem scoreRank_lt_six (σ : Dimension → ℚ) (d : Dimension) : scoreRank σ d < 6 := by
  have hsub : (Finset.univ.filter fun x => scoreBetter σ x d) ⊆ Finset.univ.erase d := by
    intro x hx
    refine Finset.mem_erase.mpr ⟨?_, Finset.mem_univ _⟩
    rintro rfl
    exact scoreBetter_irrefl σ _ (Finset.mem_filter.mp hx).2
  have hcard : (Finset.univ.erase d).card = 5 := by
    rw [Finset.card_erase_of_mem (Finset.mem_univ d), Finset.card_univ, card_dimension]
  have := Finset.card_le_card hsub
  rw [hcard] at this
  exact Nat.lt_succ_of_le this

theorem scoreRank_image (σ : Dimension → ℚ) :
    Finset.univ.image (scoreRank σ) = Finset.range 6 := by
  apply Finset.eq_of_subset_of_card_le
  · intro n hn
    rcases Finset.mem_image.mp hn with ⟨d, -, rfl⟩
    exact Finset.mem_range.mpr (scoreRank_lt_six σ d)
  · rw [Finset.card_range, Finset.card_image_of_injective _ (scoreRank_injective σ),
      Finset.card_univ, card_dimension]

theorem best_filter_card (σ : Dimension → ℚ) :
    (Finset.univ.filter fun d => scoreRank σ d < 2).card = 2 := by
  have h0 : (0 : ℕ) ∈ Finset.univ.image (scoreRank σ) := by
    rw [scoreRank_image]
    decide
  have h1 : (1 : ℕ) ∈ Finset.univ.image (scoreRank σ) := by
    rw [scoreRank_image]
    decide
  rcases Finset.mem_image.mp h0 with ⟨d0, -, hd0⟩
  rcases Finset.mem_image.mp h1 with ⟨d1, -, hd1⟩
  have hne : d0 ≠ d1 := by
    rintro rfl
    rw [hd0] at hd1
    cases hd1
  have hset : (Finset.univ.filter fun d => scoreRank σ d < 2) = {d0, d1} := by
    ext d
    simp only [Finset.mem_filter, Finset.mem_univ, true_and, Finset.mem_insert,
      Finset.mem_singleton]
    constructor
    · intro hd
      interval_cases hrank : scoreRank σ d
      · exact Or.inl (scoreRank_injective σ (hrank.trans hd0.symm))
      · exact Or.inr (scoreRank_injective σ (hrank.trans hd1.symm))
    · rintro (rfl | rfl)
      · rw [hd0]
        exact Nat.zero_lt_two
      · rw [hd1]
        exact Nat.one_lt_two
  rw [hset, Finset.card_insert_of_not_mem (by simp [hne]), Finset.card_singleton]

theorem best_areas_toFinset (res : Dimension → DimResult) :
    (aggregate res).best_areas.toFinset =
      Finset.univ.filter fun d => scoreRank (fun x => (res x).score) d < 2 := by
  ext d
  simp [aggregate, List.mem_filter, mem_dimensions d]

theorem best_areas_length (res : Dimension → DimResult) :
    (aggregate res).best_areas.length = 2 := by
  have hnd : (aggregate res).best_areas.Nodup := by
    simp only [aggregate]
    exact nodup_dimensions.filter _
  rw [← List.toFinset_card_of_nodup hnd, best_areas_toFinset, best_filter_card]

theorem mem_best_areas (res : Dimension → DimResult) (d : Dimension) :
    d ∈ (aggregate res).best_areas ↔ scoreRank (fun x => (res x).score) d < 2 := by
  simp [aggregate, List.mem_filter, mem_dimensions d]

/-- C6: for every completed analysis, overall_score equals the unweighted
mean of the 6 dimension sub-scores; best_areas lists the dimensions holding
the top-2 sub-scores — it has length 2 (hence at most 6), is ordered by
dimension declaration order, and every listed dimension outranks every
unlisted one (strictly higher sub-score, or equal sub-score and earlier
declaration position — ties broken by declaration order); and
topics_generated equals the total topic count across all dimensions and
tiers. -/
theorem analysis_aggregate_policy (res : Dimension → DimResult) :
    (aggregate res).overall_score =
      ((res .readingComprehension).score + (res .vocabulary).score +
       (res .discussionSkill).score + (res .criticalThinking).score +
       (res .culturalContext).score + (res .writing).score) / 6 ∧
    (aggregate res).topics_generated =
      (res .readingComprehension).topicCount + (res .vocabulary).topicCount +
      (res .discussionSkill).topicCount + (res .criticalThinking).topicCount +
      (res .culturalContext).topicCount + (res .writing).topicCount ∧
    (aggregate res).best_areas.length = 2 ∧
    (aggregate res).best_areas.length ≤ 6 ∧
    (aggregate res).best_areas.Sublist dimensions ∧
    (∀ a ∈ (aggregate res).best_areas, ∀ b : Dimension,
      b ∉ (aggregate res).best_areas →
        ((res b).score < (res a).score ∨
          ((res a).score = (res b).score ∧ a.idx < b.idx))) := by
  refine ⟨?_, ?_, best_areas_length res, ?_, ?_, ?_⟩
  · show (dimensions.map fun d => (res d).score).sum / 6 = _
    simp [dimensions]
    ring
  · show (dimensions.map fun d => (res d).topicCount).sum = _
    simp [dimensions]
    ring
  · rw [best_areas_length res]
    omega
  · exact List.filter_sublist _
  · intro a ha b hb
    rw [mem_best_areas] at ha
    rw [mem_best_areas] at hb
    push_neg at hb
    have hne : a ≠ b := by
      rintro rfl
      omega
    rcases scoreBetter_total (fun x => (res x).score) hne with h | h
    · exact h
    · have := scoreRank_lt_of_better (fun x => (res x).score) h
      omega

/-- Concrete per-dimension results used to exercise the aggregate policy:
sub-scores 0,1,2,3,5,5 in declaration order, no topics. -/
def sampleDimResults : Dimension → DimResult := fun d =>
  ⟨if d = .culturalContext ∨ d = .writing then 5 else (Dimension.idx d : ℚ), fun _ => []⟩

/-- Witness for C6: with sub-scores 0,1,2,3,5,5 best_areas is
[culturalContext, writing] — the two score-5 dimensions in declaration
order — and a listed dimension outranks the excluded criticalThinking. -/
theorem analysis_aggregate_policy_witness :
    (aggregate sampleDimResults).best_areas = [.culturalContext, .writing] ∧
    Dimension.culturalContext ∈ (aggregate sampleDimResults).best_areas ∧
    Dimension.criticalThinking ∉ (aggregate sampleDimResults).best_areas ∧
    ((sampleDimResults Dimension.criticalThinking).score <
        (sampleDimResults Dimension.culturalContext).score ∨
      ((sampleDimResults Dimension.culturalContext).score =
          (sampleDimResults Dimension.criticalThinking).score ∧
        Dimension.culturalContext.idx < Dimension.criticalThinking.idx)) := by
  refine ⟨by decide, by decide, by decide, ?_⟩
  exact (analysis_aggregate_policy sampleDimResults).2.2.2.2.2
    Dimension.culturalContext (by decide) Dimension.criticalThinking (by decide)

/-- Keep-first deduplication, carrying the list of already-seen elements. -/
def firstSeenAux {α : Type} [DecidableEq α] (seen : List α) : List α → List α
  | [] => []
  | a :: l => if a ∈ seen then firstSeenAux seen l else a :: firstSeenAux (a :: seen) l

/-- The distinct elements of `l` in first-seen order. -/
def firstSeen {α : Type} [DecidableEq α] (l : List α) : List α := firstSeenAux [] l

theorem mem_firstSeenAux {α : Type} [DecidableEq α] (x : α) (l : List α) :
    ∀ seen, x ∈ firstSeenAux seen l ↔ x ∈ l ∧ x ∉ seen := by
  induction l with
  | nil =>
      intro seen
      simp [firstSeenAux]
  | cons a l ih =>
      intro seen
      simp only [firstSeenAux]
      by_cases ha : a ∈ seen
      · rw [if_pos ha, ih seen]
        constructor
        · rintro ⟨h1, h2⟩
          exact ⟨List.mem_cons_of_mem _ h1, h2⟩
        · rintro ⟨h1, h2⟩
          rcases List.mem_cons.mp h1 with rfl | h1
          · exact absurd ha h2
          · exact ⟨h1, h2⟩
      · rw [if_neg ha]
        simp only [List.mem_cons, ih (a :: seen), List.mem_cons]
        constructor
        · rintro (rfl | ⟨h1, h2⟩)
          · exact ⟨Or.inl rfl, ha⟩
          · exact ⟨Or.inr h1, fun hs => h2 (Or.inr hs)⟩
        · rintro ⟨rfl | h1, h2⟩
          · exact Or.inl rfl
          · by_cases hxa : x = a
            · exact Or.inl hxa
            · exact Or.inr ⟨h1, fun hs => hs.elim hxa h2⟩

theorem mem_firstSeen {α : Type} [DecidableEq α] (x : α) (l : List α) :
    x ∈ firstSeen l ↔ x ∈ l := by
  rw [firstSeen, mem_firstSeenAux]
  simp

theorem nodup_firstSeenAux {α : Type} [DecidableEq α] (l : List α) :
    ∀ seen, (firstSeenAux seen l).Nodup := by
  induction l with
  | nil =>
      intro seen
      simp [firstSeenAux]
  | cons a l ih =>
      intro seen
      simp only [firstSeenAux]
      by_cases ha : a ∈ seen
      · rw [if_pos ha]
        exact ih seen
      · rw [if_neg ha]
        refine List.Nodup.cons ?_ (ih (a :: seen))
        intro hmem
        exact ((mem_firstSeenAux a l (a :: seen)).mp hmem).2 (List.mem_cons_self a seen)

theorem nodup_firstSeen {α : Type} [DecidableEq α] (l : List α) : (firstSeen l).Nodup :=
  nodup_firstSeenAux l []

theorem firstSeenAux_sublist {α : Type} [DecidableEq α] (l : List α) :
    ∀ seen, (firstSeenAux seen l).Sublist l := by
  induction l with
  | nil =>
      intro seen
      simp [firstSeenAux]
  | cons a l ih =>
      intro seen
      simp only [firstSeenAux]
      by_cases ha : a ∈ seen
      · rw [if_pos ha]
        exact (ih seen).cons a
      · rw [if_neg ha]
        exact (ih (a :: seen)).cons₂ a

theorem firstSeen_sublist {α : Type} [DecidableEq α] (l : List α) :
    (firstSeen l).Sublist l :=
  firstSeenAux_sublist l []

theorem flatMap_congr_mem {α β : Type} {l : List α} {f g : α → List β}
    (h : ∀ a ∈ l, f a = g a) : l.flatMap f = l.flatMap g := by
  induction l with
  | nil => rfl
  | cons a l ih =>
      rw [List.flatMap_cons, List.flatMap_cons, h a (List.mem_cons_self a l),
        ih fun x hx => h x (List.mem_cons_of_mem a hx)]

theorem perm_flatMap_of_forall {α β : Type} (keys : List α) (g h : α → List β)
    (hp : ∀ k ∈ keys, (g k).Perm (h k)) : (keys.flatMap g).Perm (keys.flatMap h) := by
  induction keys with
  | nil => exact List.Perm.refl _
  | cons k keys ih =>
      rw [List.flatMap_cons, List.flatMap_cons]
      exact (hp k (List.mem_cons_self k keys)).append
        (ih fun x hx => hp x (List.mem_cons_of_mem k hx))

/-- Partitioning a list into the fibers of its distinct keys, in key order,
is a permutation of the list. -/
theorem fiber_partition_perm {α κ : Type} [DecidableEq κ] (f : α → κ) :
    ∀ (keys : List κ) (l : List α), keys.Nodup → (∀ x ∈ l, f x ∈ keys) →
      (keys.flatMap fun k => l.filter fun x => decide (f x = k)).Perm l := by
  intro keys
  induction keys with
  | nil =>
      intro l _ hcov
      have hnil : l = [] := List.eq_nil_iff_forall_not_mem.mpr fun x hx => by
        simpa using hcov x hx
      simp [hnil]
  | cons k keys ih =>
      intro l hnd hcov
      have hk : k ∉ keys := (List.nodup_cons.mp hnd).1
      have hnd' : keys.Nodup := (List.nodup_cons.mp hnd).2
      rw [List.flatMap_cons]
      have hfib : ∀ k' ∈ keys,
          ((l.filter fun x => !decide (f x = k)).filter fun x => decide (f x = k')) =
            l.filter fun x => decide (f x = k') := by
        intro k' hk'
        have hne : k' ≠ k := fun hh => hk (hh ▸ hk')
        rw [List.filter_filter]
        apply List.filter_congr
        intro x hx
        by_cases hfx : f x = k'
        · simp [hfx, hne]
        · simp [hfx]
      have hcov' : ∀ x ∈ l.filter fun x => !decide (f x = k), f x ∈ keys := by
        intro x hx
        rcases List.mem_filter.mp hx with ⟨hxl, hxk⟩
        have hxne : f x ≠ k := by simpa using hxk
        rcases List.mem_cons.mp (hcov x hxl) with h | h
        · exact absurd h hxne
        · exact h
      have hrest : (keys.flatMap fun k' => l.filter fun x => decide (f x = k')).Perm
          (l.filter fun x => !decide (f x = k)) := by
        rw [← flatMap_congr_mem hfib]
        exact ih (l.filter fun x => !decide (f x = k)) hnd' hcov'
      exact ((List.Perm.refl (l.filter fun x => decide (f x = k))).append hrest).trans
        (List.filter_append_perm _ l)

/-- A raw row of the uploaded topic table: category, level, topic text and
supporting prompts, all as text. -/
structure RawRow where
  category : String
  level : String
  topic : String
  prompts : List String
deriving DecidableEq

/-- Display label of a dimension, as used in the topic table (spec §4.3
stage 2 names the six dimensions). -/
def Dimension.label : Dimension → String
  | .readingComprehension => "reading comprehension"
  | .vocabulary => "vocabulary"
  | .discussionSkill => "discussion skill"
  | .criticalThinking => "critical thinking"
  | .culturalContext => "cultural context"
  | .writing => "writing"

/-- Tier token, as used in the topic table and as the frontend Select
values. -/
def Tier.label : Tier → String
  | .preparation => "preparation"
  | .regular => "regular"
  | .mastery => "mastery"

/-- Modelled from the spec: recognising a category as one of the 6 known
dimensions (spec §4.4 stage 1). -/
def parseCategory (s : String) : Option Dimension :=
  dimensions.find? fun d => decide (d.label = s)

/-- Modelled from the spec: recognising a level as one of the 3 tiers
(spec §4.4 stage 1). -/
def parseTier (s : String) : Option Tier :=
  tiers.find? fun t => decide (t.label = s)

/-- A row that passed validation. -/
structure ValidRow where
  category : Dimension
  tier : Tier
  topic : String
  prompts : List String
deriving DecidableEq

/-- Modelled from the spec: row validation — category must be one of the 6
known dimensions, level one of the 3 tiers, topic text non-empty; invalid
rows are skipped (spec §4.4 stage 1). -/
def parseRow (r : RawRow) : Option ValidRow :=
  match parseCategory r.category, parseTier r.level with
  | some c, some t => if r.topic = "" then none else some ⟨c, t, r.topic, r.prompts⟩
  | _, _ => none

/-- One section of a chapter: a category with its topic entries. -/
structure DocSection where
  category : Dimension
  entries : List ValidRow
deriving DecidableEq

/-- One chapter of the document: a tier with its sections. -/
structure Chapter where
  tier : Tier
  sections : List DocSection
deriving DecidableEq

/-- Modelled from the spec: grouping — valid rows grouped by level tier,
then by category within each tier, preserving first-seen order (stable,
never re-sorted alphabetically), one chapter per tier and one section per
category (spec §4.4 stages 2–3). -/
def buildChapters (rows : List ValidRow) : List Chapter :=
  (firstSeen (rows.map ValidRow.tier)).map fun t =>
    { tier := t
    , sections :=
        (firstSeen ((rows.filter fun r => decide (r.tier = t)).map ValidRow.category)).map
          fun c =>
            { category := c
            , entries := (rows.filter fun r => decide (r.tier = t)).filter
                fun r => decide (r.category = c) } }

/-- The assembled document tree (spec §4.4 stage 3): cover fields from the
document settings, then the chapters. -/
structure DocTree where
  coverTitle : String
  coverSubtitle : String
  coverAuthor : String
  coverInstitution : String
  chapters : List Chapter
deriving DecidableEq

/-- Modelled from the spec: the Document Assembler — validate the rows,
fail with "no valid topics" when none remain, otherwise build the grouped
tree; the accumulated warning count is the number of skipped rows
(spec §4.4). -/
def assemble (rows : List RawRow) (s : GenSettings) : Except String (DocTree × Nat) :=
  let valid := rows.filterMap parseRow
  if valid.isEmpty then .error "no valid topics"
  else .ok (⟨s.title, s.subtitle, s.author, s.institution, buildChapters valid⟩,
    rows.length - valid.length)

/-- The leaf topic entries of a chapter, in order. -/
def Chapter.leafRows (ch : Chapter) : List ValidRow :=
  ch.sections.flatMap DocSection.entries

/-- The leaf topic entries of the whole tree, in order. -/
def chaptersLeafRows (chs : List Chapter) : List ValidRow :=
  chs.flatMap Chapter.leafRows

/-- The 18 tier/category pairs. -/
def allPairs : List (Tier × Dimension) :=
  tiers.flatMap fun t => dimensions.map fun c => (t, c)

theorem map_flatMap_eq {α β γ : Type} (l : List α) (f : α → β) (g : β → List γ) :
    (l.map f).flatMap g = l.flatMap fun x => g (f x) := by
  induction l with
  | nil => rfl
  | cons a l ih => rw [List.map_cons, List.flatMap_cons, List.flatMap_cons, ih]

theorem map_id_of_eq {α : Type} {f : α → α} (h : ∀ x, f x = x) :
    ∀ l : List α, l.map f = l := by
  intro l
  induction l with
  | nil => rfl
  | cons a l ih => rw [List.map_cons, h a, ih]

theorem leafRows_mk (t : Tier) (secs : List DocSection) :
    Chapter.leafRows ⟨t, secs⟩ = secs.flatMap DocSection.entries := rfl

/-- The leaves of the built chapters are a permutation of the valid rows:
grouping neither drops nor duplicates a row. -/
theorem chaptersLeafRows_perm (rows : List ValidRow) :
    (chaptersLeafRows (buildChapters rows)).Perm rows := by
  unfold chaptersLeafRows buildChapters
  rw [map_flatMap_eq]
  refine (perm_flatMap_of_forall _ _
    (fun t => rows.filter fun r => decide (r.tier = t)) ?_).trans ?_
  · intro t _
    rw [leafRows_mk, map_flatMap_eq]
    refine fiber_partition_perm ValidRow.category _ _ (nodup_firstSeen _) ?_
    intro r hr
    exact (mem_firstSeen _ _).mpr (List.mem_map_of_mem ValidRow.category hr)
  · refine fiber_partition_perm ValidRow.tier _ rows (nodup_firstSeen _) ?_
    intro r hr
    exact (mem_firstSeen _ _).mpr (List.mem_map_of_mem ValidRow.tier hr)

theorem length_filterMap_of_isSome {α β : Type} (f : α → Option β) :
    ∀ l : List α, (∀ x ∈ l, (f x).isSome = true) → (l.filterMap f).length = l.length := by
  intro l
  induction l with
  | nil =>
      intro _
      rfl
  | cons a l ih =>
      intro h
      rcases Option.isSome_iff_exists.mp (h a (List.mem_cons_self a l)) with ⟨b, hb⟩
      rw [List.filterMap_cons, hb]
      simp only [List.length_cons]
      rw [ih fun x hx => h x (List.mem_cons_of_mem a hx)]

theorem buildChapters_map_tier (rows : List ValidRow) :
    (buildChapters rows).map Chapter.tier = firstSeen (rows.map ValidRow.tier) := by
  unfold buildChapters
  rw [List.map_map]
  exact map_id_of_eq (fun t => rfl) _

theorem buildChapters_sections_categories (rows : List ValidRow) (ch : Chapter)
    (hch : ch ∈ buildChapters rows) :
    ch.sections.map DocSection.category =
      firstSeen ((rows.filter fun r => decide (r.tier = ch.tier)).map ValidRow.category) := by
  unfold buildChapters at hch
  rcases List.mem_map.mp hch with ⟨t, -, rfl⟩
  exact (List.map_map _ _ _).trans (map_id_of_eq (fun c => rfl) _)

/-- C7: for an input table of 18 valid rows covering the 3 tiers × 6
categories with one row each, the assembled document tree has exactly 3
chapters, each chapter has at most 6 sections, the total number of leaf
topic entries is 18 and the leaves are exactly the valid rows (grouped by
tier then category, neither dropped nor duplicated), and the chapter order
and per-chapter section order are subsequences of the rows' first-seen
tier/category appearance order — never re-sorted alphabetically. -/
theorem document_tree_shape (rows : List RawRow) (s : GenSettings)
    (hvalid : ∀ r ∈ rows, (parseRow r).isSome = true)
    (hperm : ((rows.filterMap parseRow).map fun r => (r.tier, r.category)).Perm allPairs) :
    rows.length = 18 ∧
    assemble rows s = .ok (⟨s.title, s.subtitle, s.author, s.institution,
      buildChapters (rows.filterMap parseRow)⟩, 0) ∧
    (buildChapters (rows.filterMap parseRow)).length = 3 ∧
    (∀ ch ∈ buildChapters (rows.filterMap parseRow), ch.sections.length ≤ 6) ∧
    (chaptersLeafRows (buildChapters (rows.filterMap parseRow))).length = 18 ∧
    (chaptersLeafRows (buildChapters (rows.filterMap parseRow))).Perm
      (rows.filterMap parseRow) ∧
    ((buildChapters (rows.filterMap parseRow)).map Chapter.tier).Sublist
      ((rows.filterMap parseRow).map ValidRow.tier) ∧
    (∀ ch ∈ buildChapters (rows.filterMap parseRow),
      (ch.sections.map DocSection.category).Sublist
        (((rows.filterMap parseRow).filter fun r => decide (r.tier = ch.tier)).map
          ValidRow.category)) := by
  have hlen18 : (rows.filterMap parseRow).length = 18 := by
    have hl := hperm.length_eq
    rw [List.length_map] at hl
    exact hl.trans rfl
  have hrows18 : rows.length = 18 := by
    rw [← length_filterMap_of_isSome parseRow rows hvalid]
    exact hlen18
  have htiers : ∀ t : Tier, t ∈ (rows.filterMap parseRow).map ValidRow.tier := by
    intro t
    have hmem : (t, Dimension.readingComprehension) ∈ allPairs := by
      cases t <;> decide
    rcases List.mem_map.mp (hperm.mem_iff.mpr hmem) with ⟨r, hr, heq⟩
    exact List.mem_map.mpr ⟨r, hr, congrArg Prod.fst heq⟩
  have hch3 : (buildChapters (rows.filterMap parseRow)).length = 3 := by
    have hmt := congrArg List.length (buildChapters_map_tier (rows.filterMap parseRow))
    rw [List.length_map] at hmt
    rw [hmt]
    have hnd := nodup_firstSeen ((rows.filterMap parseRow).map ValidRow.tier)
    have htf : (firstSeen ((rows.filterMap parseRow).map ValidRow.tier)).toFinset =
        Finset.univ :=
      Finset.eq_univ_iff_forall.mpr fun t =>
        List.mem_toFinset.mpr ((mem_firstSeen _ _).mpr (htiers t))
    have hcard := List.toFinset_card_of_nodup hnd
    rw [htf, Finset.card_univ] at hcard
    exact hcard.symm.trans rfl
  have hne : (rows.filterMap parseRow).isEmpty = false := by
    cases hv : rows.filterMap parseRow with
    | nil =>
        rw [hv] at hlen18
        exact absurd hlen18 (by decide)
    | cons a l => rfl
  refine ⟨hrows18, ?_, hch3, ?_, ?_, chaptersLeafRows_perm _, ?_, ?_⟩
  · simp [assemble, hne, hrows18, hlen18]
  · intro ch hch
    have hc := congrArg List.length
      (buildChapters_sections_categories (rows.filterMap parseRow) ch hch)
    rw [List.length_map] at hc
    rw [hc]
    have hle := (nodup_firstSeen
      (((rows.filterMap parseRow).filter fun r => decide (r.tier = ch.tier)).map
        ValidRow.category)).length_le_card
    rw [card_dimension] at hle
    exact hle
  · rw [(chaptersLeafRows_perm (rows.filterMap parseRow)).length_eq]
    exact hlen18
  · rw [buildChapters_map_tier]
    exact firstSeen_sublist _
  · intro ch hch
    rw [buildChapters_sections_categories (rows.filterMap parseRow) ch hch]
    exact firstSeen_sublist _

/-- Concrete 18-row table covering every tier/category pair once, listed in
an order different from both declaration and alphabetical order. -/
def sampleRows : List RawRow :=
  ([Tier.mastery, Tier.preparation, Tier.regular]).flatMap fun t =>
    ([Dimension.writing, Dimension.culturalContext, Dimension.criticalThinking,
      Dimension.discussionSkill, Dimension.vocabulary,
      Dimension.readingComprehension]).map fun c =>
      ⟨c.label, t.label, "Discuss the main theme", ["Why?"]⟩

/-- Witness for C7: the concrete 18-row table is fully valid and covers all
pairs; the built tree has 3 chapters and 18 leaves, with the chapters in
first-seen tier order (mastery, preparation, regular — not re-sorted). -/
theorem document_tree_shape_witness :
    (∀ r ∈ sampleRows, (parseRow r).isSome = true) ∧
    ((sampleRows.filterMap parseRow).map fun r => (r.tier, r.category)).Perm allPairs ∧
    (buildChapters (sampleRows.filterMap parseRow)).length = 3 ∧
    (chaptersLeafRows (buildChapters (sampleRows.filterMap parseRow))).length = 18 ∧
    (buildChapters (sampleRows.filterMap parseRow)).map Chapter.tier =
      [Tier.mastery, Tier.preparation, Tier.regular] := by
  refine ⟨by decide, by decide, ?_, ?_, by decide⟩
  · exact (document_tree_shape sampleRows initialSettings (by decide) (by decide)).2.2.1
  · exact (document_tree_shape sampleRows initialSettings (by decide) (by decide)).2.2.2.2.1

end PascalDocx
